import Mathlib

/-!
Shallow embedding of the chess legality engine in `Chess.py`.

The board is the program's 8x8 list-of-lists of characters (uppercase =
white, lowercase = black, `'.'` = empty), squares are `(row, column)`
pairs of naturals (the Python code guards every reachable access with
`in_bounds`, so the natural-number domain is faithful).

The Python functions `is_valid_move`, `square_attacked_by`, `in_check`,
`can_castle` and `move_with_extras` are mutually recursive.  The
recursion is factored through an explicit `Validator` parameter: each
helper `...G` takes the validator it calls back into, exactly at the
call sites of the source.  The operational versions instantiate the
parameter with the raw-mode specialization that `square_attacked_by`
actually reaches (`castling_rights=None`, `checking_check=False`), and
the fueled version `isValidMoveF` ties the literal recursive knot; the
two are proved to agree, which certifies termination of the source's
call graph (claim C5).
-/

namespace Chess

/-- A board square `(row, col)`, row 0 = black home rank, as in the source. -/
abbrev Sq := Nat × Nat

/-- Piece colors.  The source uses the strings `"white"` and `"black"`. -/
inductive Color where
  | white
  | black
deriving DecidableEq, Repr

/-- Castling sides.  The source uses the strings `'king'` and `'queen'`. -/
inductive Side where
  | king
  | queen
deriving DecidableEq, Repr

/-- The opponent of a color (`'white' if color == 'black' else 'black'`). -/
def Color.other : Color → Color
  | .white => .black
  | .black => .white

/-- The board: Python's `8x8` list of lists of single characters. -/
abbrev Board := List (List Char)

/-- Read `board[r][c]`; all reachable accesses in the source are in bounds,
out-of-range reads default to `'.'`. -/
def bGet (b : Board) (sq : Sq) : Char :=
  (b.getD sq.1 []).getD sq.2 '.'

/-- Write `board[r][c] = ch` (Python list mutation, modelled functionally). -/
def bSet (b : Board) (sq : Sq) (ch : Char) : Board :=
  b.set sq.1 ((b.getD sq.1 []).set sq.2 ch)

/-- `in_bounds(r, c)`: the square lies on the 8x8 board. -/
def inBounds (r c : Nat) : Bool :=
  decide (r < 8) && decide (c < 8)

/-- `get_piece_color(piece)`: `None` for `'.'`, else white iff uppercase
(`"white" if piece.isupper() else "black"`). -/
def getPieceColor (piece : Char) : Option Color :=
  if piece = '.' then none
  else if piece.isUpper then some .white else some .black

/-- `is_white(piece)`: uppercase characters are white pieces. -/
def isWhitePiece (piece : Char) : Bool := piece.isUpper

/-- The king character of a color (`'K'` / `'k'`). -/
def kingChar : Color → Char
  | .white => 'K'
  | .black => 'k'

/-- The rook character of a color (`'R'` / `'r'`). -/
def rookChar : Color → Char
  | .white => 'R'
  | .black => 'r'

/-- The home rank row of a color: `7 if color == 'white' else 0`. -/
def homeRow : Color → Nat
  | .white => 7
  | .black => 0

/-- Castling rights for both colors: the source's dict
`{"white": [kingside, queenside], "black": [kingside, queenside]}`. -/
structure Castling where
  white : Bool × Bool
  black : Bool × Bool
deriving DecidableEq, Repr

/-- Look up `castling_dict[color]`. -/
def Castling.get (cd : Castling) : Color → Bool × Bool
  | .white => cd.white
  | .black => cd.black

/-- Assign `castling_dict[color] = rights`. -/
def Castling.setC (cd : Castling) : Color → Bool × Bool → Castling
  | .white, p => { cd with white := p }
  | .black, p => { cd with black := p }

/-- Both colors keep both rights (the initial `CASTLE_RIGHTS`). -/
def fullRights : Castling := ⟨(true, true), (true, true)⟩

/-- Clamp an integer coordinate pair to a square when in bounds. -/
def toSq (r c : Int) : Option Sq :=
  if 0 ≤ r ∧ r < 8 ∧ 0 ≤ c ∧ c < 8 then some (r.toNat, c.toNat) else none

/-- All 64 squares in the source's scan order (row-major). -/
def allSquares : List Sq :=
  (List.range 8).flatMap fun r => (List.range 8).map fun c => (r, c)

/-- Knight move offsets from `build_knight_moves`. -/
def knightOffsets : List (Int × Int) :=
  [(-2, -1), (-2, 1), (-1, -2), (-1, 2), (1, -2), (1, 2), (2, -1), (2, 1)]

/-- King move offsets from `build_king_moves`. -/
def kingOffsets : List (Int × Int) :=
  [(-1, -1), (-1, 0), (-1, 1), (0, -1), (0, 1), (1, -1), (1, 0), (1, 1)]

/-- `KNIGHT_MOVES[sq]`: in-bounds knight destinations from `sq`. -/
def knightMoves (sq : Sq) : List Sq :=
  knightOffsets.filterMap fun (dr, dc) => toSq ((sq.1 : Int) + dr) ((sq.2 : Int) + dc)

/-- `KING_MOVES[sq]`: in-bounds one-step king destinations from `sq`
(castling excluded, as in the source). -/
def kingMoves (sq : Sq) : List Sq :=
  kingOffsets.filterMap fun (dr, dc) => toSq ((sq.1 : Int) + dr) ((sq.2 : Int) + dc)

/-- One sliding ray from `sq` in direction `(dr, dc)`, nearest square
first, stopping at the board edge (`build_sliding_moves`' inner while
loop; leaving the board in a fixed direction is permanent, so the first
out-of-bounds step ends the ray). -/
def rayFrom (sq : Sq) (dr dc : Int) : List Sq :=
  (List.range 7).filterMap fun k =>
    toSq ((sq.1 : Int) + (k + 1) * dr) ((sq.2 : Int) + (k + 1) * dc)

/-- `ROOK_SLIDES[sq]`: the four horizontal/vertical rays, in the
source's direction order. -/
def rookSlides (sq : Sq) : List (List Sq) :=
  [rayFrom sq 1 0, rayFrom sq (-1) 0, rayFrom sq 0 1, rayFrom sq 0 (-1)]

/-- `BISHOP_SLIDES[sq]`: the four diagonal rays, in the source's
direction order. -/
def bishopSlides (sq : Sq) : List (List Sq) :=
  [rayFrom sq 1 1, rayFrom sq 1 (-1), rayFrom sq (-1) 1, rayFrom sq (-1) (-1)]

/-- `STARTING_BOARD` from the source. -/
def startingBoard : Board :=
  [ "rnbqkbnr".toList,
    "pppppppp".toList,
    "........".toList,
    "........".toList,
    "........".toList,
    "........".toList,
    "PPPPPPPP".toList,
    "RNBQKBNR".toList ]

/-- `find_king_position(board, color)`: first square (row-major scan)
holding that color's king, if any. -/
def findKingPos (b : Board) (color : Color) : Option Sq :=
  allSquares.find? fun sq => bGet b sq = kingChar color

/-- The inner walk of `valid_rook_move` / `valid_bishop_move` along one
ray: reach the destination before the first occupied square. -/
def rayReach (b : Board) : List Sq → Sq → Bool
  | [], _ => false
  | sq :: rest, e =>
    if sq = e then true
    else if bGet b sq ≠ '.' then false
    else rayReach b rest e

/-- The outer loop of `valid_rook_move` / `valid_bishop_move`: find the
ray containing the destination and walk it. -/
def slideValid (b : Board) : List (List Sq) → Sq → Bool
  | [], _ => false
  | ray :: rest, e =>
    if e ∈ ray then rayReach b ray e else slideValid b rest e

/-- `valid_rook_move(board, start, end)`. -/
def validRookMove (b : Board) (s e : Sq) : Bool :=
  slideValid b (rookSlides s) e

/-- `valid_bishop_move(board, start, end)`. -/
def validBishopMove (b : Board) (s e : Sq) : Bool :=
  slideValid b (bishopSlides s) e

/-- `valid_queen_move(board, start, end)`: rook pattern or bishop pattern. -/
def validQueenMove (b : Board) (s e : Sq) : Bool :=
  if validRookMove b s e then true
  else if validBishopMove b s e then true
  else false

/-- `valid_pawn_move(board, start, end, turn_white, en_passant_target)`:
single push, double push from the home rank, diagonal capture, or en
passant onto the live target square. -/
def validPawnMove (b : Board) (s e : Sq) (turnWhite : Bool) (enp : Option Sq) : Bool :=
  let r1 := s.1; let c1 := s.2; let r2 := e.1; let c2 := e.2
  let dir : Int := if turnWhite then -1 else 1
  let startRow : Nat := if turnWhite then 6 else 1
  let enemy : Color := if turnWhite then .black else .white
  if c1 = c2 ∧ (r2 : Int) = (r1 : Int) + dir ∧ bGet b e = '.' then true
  else if c1 = c2 ∧ r1 = startRow ∧ (r2 : Int) = (r1 : Int) + 2 * dir ∧
        bGet b (((r1 : Int) + dir).toNat, c1) = '.' ∧ bGet b e = '.' then true
  else if ((c2 : Int) - (c1 : Int)).natAbs = 1 ∧ (r2 : Int) = (r1 : Int) + dir then
    if bGet b e ≠ '.' ∧ getPieceColor (bGet b e) = some enemy then true
    else
      match enp with
      | some tg => if e = tg ∧ bGet b e = '.' then true else false
      | none => false
  else false

/-- The type of `is_valid_move`: board, start, end, `turn_white`,
`en_passant_target`, `castling_rights` (the source passes `None` from
`square_attacked_by`), `checking_check`. -/
abbrev Validator :=
  Board → Sq → Sq → Bool → Option Sq → Option Castling → Bool → Bool

/-- `square_attacked_by(board, r, c, color)`: some piece of `color` has a
raw-mode move to `(r, c)`; the validator is called exactly as in the
source, with `en_passant_target=None`, `castling_rights=None`,
`checking_check=False`. -/
def squareAttackedByG (v : Validator) (b : Board) (r c : Nat) (color : Color) : Bool :=
  allSquares.any fun sq =>
    let piece := bGet b sq
    decide (piece ≠ '.') && decide (getPieceColor piece = some color) &&
      v b sq (r, c) (decide (color = .white)) none none false

/-- `in_check(board, color)`: the color's king square is attacked by the
opponent; `False` when no king is on the board. -/
def inCheckG (v : Validator) (b : Board) (color : Color) : Bool :=
  match findKingPos b color with
  | none => false
  | some (r, c) => squareAttackedByG v b r c color.other

/-- `can_castle(board, color, side, castling_rights)`: rights held, king
and rook on their original squares, the squares between them empty, and
the king's square and transit squares (destination included) unattacked. -/
def canCastleG (v : Validator) (b : Board) (color : Color) (side : Side)
    (rights : Bool × Bool) : Bool :=
  let row := homeRow color
  let kc := kingChar color
  match side with
  | .king =>
    if ¬ rights.1 then false
    else if bGet b (row, 4) ≠ kc then false
    else if bGet b (row, 5) ≠ '.' ∨ bGet b (row, 6) ≠ '.' then false
    else if ¬ ((bGet b (row, 7) = 'R' ∨ bGet b (row, 7) = 'r') ∧
               getPieceColor (bGet b (row, 7)) = some color) then false
    else if inCheckG v b color then false
    else if squareAttackedByG v b row 5 color.other then false
    else if squareAttackedByG v b row 6 color.other then false
    else true
  | .queen =>
    if ¬ rights.2 then false
    else if bGet b (row, 4) ≠ kc then false
    else if bGet b (row, 3) ≠ '.' ∨ bGet b (row, 2) ≠ '.' ∨ bGet b (row, 1) ≠ '.' then false
    else if ¬ ((bGet b (row, 0) = 'R' ∨ bGet b (row, 0) = 'r') ∧
               getPieceColor (bGet b (row, 0)) = some color) then false
    else if inCheckG v b color then false
    else if squareAttackedByG v b row 3 color.other then false
    else if squareAttackedByG v b row 2 color.other then false
    else true

/-- `do_castle(board, color, side)`: relocate king and rook, in the
source's write order. -/
def doCastle (b : Board) (color : Color) (side : Side) : Board :=
  let row := homeRow color
  let kc := kingChar color
  match side with
  | .king =>
    let b1 := bSet b (row, 4) '.'
    let b2 := bSet b1 (row, 6) kc
    let b3 := bSet b2 (row, 5) (bGet b2 (row, 7))
    bSet b3 (row, 7) '.'
  | .queen =>
    let b1 := bSet b (row, 4) '.'
    let b2 := bSet b1 (row, 2) kc
    let b3 := bSet b2 (row, 3) (bGet b2 (row, 0))
    bSet b3 (row, 0) '.'

/-- `move_with_extras(board, start, end, turn_white, en_passant_target,
castling_dict)`: apply a move, handling castling, en passant capture,
the new en-passant target, promotion (via the provider `prov`, the
source's `promotion_choice`), and castling-rights revocation.  Returns
the updated board together with the source's return value
`(new_en_passant_target, castling_dict)`.  The `turn_white` argument is
unused by the source's body (it derives the color from the piece). -/
def moveWithExtrasG (v : Validator) (prov : Color → Char) (b : Board) (s e : Sq)
    (_turnWhite : Bool) (enp : Option Sq) (cd : Castling) :
    Board × Option Sq × Castling :=
  let r1 := s.1; let c1 := s.2; let r2 := e.1; let c2 := e.2
  let piece := bGet b s
  let p := piece.toUpper
  let color : Color := if isWhitePiece piece then .white else .black
  let row := homeRow color
  let castleSide : Option Side :=
    if p = 'K' ∧ s = (row, 4) ∧ e = (row, 6) ∧
        canCastleG v b color .king (cd.get color) then some .king
    else if p = 'K' ∧ s = (row, 4) ∧ e = (row, 2) ∧
        canCastleG v b color .queen (cd.get color) then some .queen
    else none
  match castleSide with
  | some side => (doCastle b color side, none, cd.setC color (false, false))
  | none =>
    let b1 := bSet b s '.'
    let b2 :=
      match enp with
      | some tg =>
        if p = 'P' ∧ e = tg ∧ c1 ≠ c2 ∧ bGet b1 e = '.' then bSet b1 (r1, c2) '.'
        else b1
      | none => b1
    let b3 := bSet b2 e piece
    let newEnp : Option Sq :=
      if p = 'P' ∧ ((r2 : Int) - (r1 : Int)).natAbs = 2 then some ((r1 + r2) / 2, c1)
      else none
    let b4 :=
      if p = 'P' ∧ color = .white ∧ r2 = 0 then bSet b3 e (prov color)
      else if p = 'P' ∧ color = .black ∧ r2 = 7 then bSet b3 e (prov color)
      else b3
    let cd1 :=
      if p = 'K' then cd.setC color (false, false)
      else if p = 'R' then
        let cdq := if s = (row, 0) then cd.setC color ((cd.get color).1, false) else cd
        if s = (row, 7) then cdq.setC color (false, (cdq.get color).2) else cdq
      else cd
    (b4, newEnp, cd1)

/-- The piece-specific dispatch of `is_valid_move` (`p = piece.upper()`
followed by the `if p == ...` chain), with the castle branch delegating
to `can_castle` when the destination is a castle square and castling
rights were supplied (`None` rights reject the castle, as in the
source). -/
def pieceRule (v : Validator) (b : Board) (s e : Sq) (turnWhite : Bool)
    (enp : Option Sq) (cr : Option Castling) : Bool :=
  let p := (bGet b s).toUpper
  if p = 'P' then validPawnMove b s e turnWhite enp
  else if p = 'N' then decide (e ∈ knightMoves s)
  else if p = 'B' then validBishopMove b s e
  else if p = 'R' then validRookMove b s e
  else if p = 'Q' then validQueenMove b s e
  else if p = 'K' then
    if e ∈ kingMoves s then true
    else
      let color : Color := if turnWhite then .white else .black
      let side : Option Side :=
        if e = (if color = .white then ((7, 6) : Sq) else (0, 6)) then some .king
        else if e = (if color = .white then ((7, 2) : Sq) else (0, 2)) then some .queen
        else none
      match side with
      | none => false
      | some sd =>
        match cr with
        | none => false
        | some crd => canCastleG v b color sd (crd.get color)
  else false

/-- The raw-legality prefix of `is_valid_move` (everything up to, and
excluding, the `checking_check` simulation): bounds, origin occupancy,
side to move, no own-piece capture, then the piece-specific rule.  Each
early `return False` of the source is one `if ... then false` here. -/
def rawLegal (v : Validator) (b : Board) (s e : Sq) (turnWhite : Bool)
    (enp : Option Sq) (cr : Option Castling) : Bool :=
  if ¬ (inBounds s.1 s.2 && inBounds e.1 e.2) then false
  else
    let piece := bGet b s
    if piece = '.' then false
    else
      let pieceColor : Color := if isWhitePiece piece then .white else .black
      if turnWhite ∧ pieceColor ≠ .white then false
      else if (¬ turnWhite) ∧ pieceColor ≠ .black then false
      else
        let target := bGet b e
        if target ≠ '.' ∧ getPieceColor target = some pieceColor then false
        else pieceRule v b s e turnWhite enp cr

/-- The body of `is_valid_move(board, start, end, turn_white,
en_passant_target, castling_rights, checking_check)`, with the recursive
call sites routed through the validator parameter `v`: the raw-legality
prefix, then — only in full mode — the simulation on a scratch copy via
`move_with_extras` followed by the own-king check test. -/
def isValidMoveBody (v : Validator) (prov : Color → Char) (b : Board) (s e : Sq)
    (turnWhite : Bool) (enp : Option Sq) (cr : Option Castling)
    (checkingCheck : Bool) : Bool :=
  if ¬ rawLegal v b s e turnWhite enp cr then false
  else if ¬ checkingCheck then true
  else
    let piece := bGet b s
    let pieceColor : Color := if isWhitePiece piece then .white else .black
    let tempCr := match cr with | some crd => crd | none => fullRights
    let sim := moveWithExtrasG v prov b s e turnWhite enp tempCr
    if inCheckG v sim.1 pieceColor then false
    else true

/-- The raw-mode specialization that `square_attacked_by` reaches:
`is_valid_move(..., en_passant_target, castling_rights=None,
checking_check=False)`.  With `castling_rights=None` the castle branch
returns `False` before calling `can_castle`, and with
`checking_check=False` the simulation is skipped, so this definition is
independent of the validator and provider plugged into the body. -/
def isPseudoLegalNC (b : Board) (s e : Sq) (turnWhite : Bool) (enp : Option Sq) : Bool :=
  rawLegal (fun _ _ _ _ _ _ _ => false) b s e turnWhite enp none

/-- The validator the operational definitions below tie the knot with:
precisely the raw-mode specialization above (its last two arguments are
the ones `square_attacked_by` fixes to `None` and `False`). -/
def rawAdapter : Validator :=
  fun b s e turnWhite enp _ _ => isPseudoLegalNC b s e turnWhite enp

/-- Operational `square_attacked_by`. -/
def squareAttackedBy (b : Board) (r c : Nat) (color : Color) : Bool :=
  squareAttackedByG rawAdapter b r c color

/-- Operational `in_check`. -/
def inCheck (b : Board) (color : Color) : Bool :=
  inCheckG rawAdapter b color

/-- Operational `can_castle`. -/
def canCastle (b : Board) (color : Color) (side : Side) (rights : Bool × Bool) : Bool :=
  canCastleG rawAdapter b color side rights

/-- Operational `move_with_extras`. -/
def moveWithExtras (prov : Color → Char) (b : Board) (s e : Sq) (turnWhite : Bool)
    (enp : Option Sq) (cd : Castling) : Board × Option Sq × Castling :=
  moveWithExtrasG rawAdapter prov b s e turnWhite enp cd

/-- Operational `is_valid_move`. -/
def isValidMove (prov : Color → Char) (b : Board) (s e : Sq) (turnWhite : Bool)
    (enp : Option Sq) (cr : Option Castling) (checkingCheck : Bool) : Bool :=
  isValidMoveBody rawAdapter prov b s e turnWhite enp cr checkingCheck

/-- The literal mutual recursion of the source, bounded by fuel: at fuel
`f+1`, every recursive call back into `is_valid_move` runs at fuel `f`;
at fuel `0` the validator answers `false`. -/
def isValidMoveF (prov : Color → Char) : Nat → Validator
  | 0 => fun _ _ _ _ _ _ _ => false
  | f + 1 => fun b s e turnWhite enp cr checkingCheck =>
      isValidMoveBody (isValidMoveF prov f) prov b s e turnWhite enp cr checkingCheck

/-- `has_legal_move(board, color, castling_rights, en_passant_target)`:
some origin/destination pair passes full validation and (the source
re-checks) leaves the king out of check after simulation. -/
def hasLegalMove (prov : Color → Char) (b : Board) (color : Color) (cd : Castling)
    (enp : Option Sq) : Bool :=
  allSquares.any fun s =>
    let piece := bGet b s
    decide (piece ≠ '.') && decide (getPieceColor piece = some color) &&
      allSquares.any fun e =>
        isValidMove prov b s e (decide (color = .white)) enp (some cd) true &&
          !(inCheck (moveWithExtras prov b s e (decide (color = .white)) enp cd).1 color)

/-- `is_checkmate(board, color, castling_rights, en_passant_target)`. -/
def isCheckmate (prov : Color → Char) (b : Board) (color : Color) (cd : Castling)
    (enp : Option Sq) : Bool :=
  if ¬ inCheck b color then false
  else if ¬ hasLegalMove prov b color cd enp then true
  else false

/-- `is_stalemate(board, color, castling_rights, en_passant_target)`. -/
def isStalemate (prov : Color → Char) (b : Board) (color : Color) (cd : Castling)
    (enp : Option Sq) : Bool :=
  if inCheck b color then false
  else if ¬ hasLegalMove prov b color cd enp then true
  else false

/-- The number of `(origin, destination)` pairs accepted by the
full-legality query in a given position. -/
def countLegalMoves (prov : Color → Char) (b : Board) (turnWhite : Bool)
    (enp : Option Sq) (cd : Castling) : Nat :=
  (allSquares.flatMap fun s => allSquares.map fun e => (s, e)).countP
    fun m => isValidMove prov b m.1 m.2 turnWhite enp (some cd) true

/-- A deterministic promotion provider (always queens), used to
instantiate the provider where its choice is irrelevant. -/
def provQ : Color → Char
  | .white => 'Q'
  | .black => 'q'

/-- The number of legal moves available from one origin square. -/
def originLegalCount (prov : Color → Char) (b : Board) (turnWhite : Bool)
    (enp : Option Sq) (cd : Castling) (s : Sq) : Nat :=
  allSquares.countP fun e => isValidMove prov b s e turnWhite enp (some cd) true

/-- The number of legal moves whose origin lies in row `r`. -/
def rowLegalCount (prov : Color → Char) (b : Board) (turnWhite : Bool)
    (enp : Option Sq) (cd : Castling) (r : Nat) : Nat :=
  ((List.range 8).map fun c => originLegalCount prov b turnWhite enp cd (r, c)).sum

/-- Well-formedness of a board value: 8 rows of 8 cells (the Python
board is always such a list of lists). -/
def wf8 (b : Board) : Prop :=
  b.length = 8 ∧ ∀ i, i < 8 → (b.getD i []).length = 8

/-- The rays a sliding piece moves along: `ROOK_SLIDES` for rooks,
`BISHOP_SLIDES` for bishops, both for queens.  Statement helper for the
sliding-blocking property. -/
def pieceRays (p : Char) (s : Sq) : List (List Sq) :=
  if p = 'R' then rookSlides s
  else if p = 'B' then bishopSlides s
  else if p = 'Q' then rookSlides s ++ bishopSlides s
  else []

/-- The number of `promotion_choice` (promotion provider) invocations a
single call to `move_with_extras` performs: the promotion branch is the
only call site, so it is 0 when the castle branch returns early or when
the moved piece is not a pawn reaching the final rank, and 1 otherwise,
mirroring the executor's branch conditions. -/
def execPromoCalls (b : Board) (s e : Sq) (cd : Castling) : Nat :=
  let piece := bGet b s
  let p := piece.toUpper
  let color : Color := if isWhitePiece piece then .white else .black
  let row := homeRow color
  if p = 'K' ∧ s = (row, 4) ∧ e = (row, 6) ∧ canCastle b color .king (cd.get color) = true
    then 0
  else if p = 'K' ∧ s = (row, 4) ∧ e = (row, 2) ∧ canCastle b color .queen (cd.get color) = true
    then 0
  else if p = 'P' ∧ color = .white ∧ e.1 = 0 then 1
  else if p = 'P' ∧ color = .black ∧ e.1 = 7 then 1
  else 0

/-- The number of promotion-provider invocations a call to
`is_valid_move` performs: when the raw prefix passes and
`checking_check` is set, the check-safety simulation runs
`move_with_extras` once on the scratch board (with the rights copy that
the source builds), and that run prompts the provider whenever the move
is a pawn reaching the final rank. -/
def isValidMovePromoCalls (b : Board) (s e : Sq) (t : Bool) (enp : Option Sq)
    (cr : Option Castling) (checkingCheck : Bool) : Nat :=
  if rawLegal rawAdapter b s e t enp cr = true ∧ checkingCheck = true then
    execPromoCalls b s e (match cr with | some crd => crd | none => fullRights)
  else 0

/-- Modelled from the spec (section 4.4): the castling precondition
stated in the specification's own words — the right for that side is
still held, king and rook occupy their original squares with the
correct colors, every square strictly between them is empty, and
neither the king's square nor any square the king passes through
(including the destination) is attacked by the opponent.  Compared
against the source's `can_castle` in the C4 theorem. -/
def specCanCastle (b : Board) (color : Color) (side : Side) (rights : Bool × Bool) : Bool :=
  let row := homeRow color
  match side with
  | .king =>
    rights.1 &&
    decide (bGet b (row, 4) = kingChar color) &&
    decide (bGet b (row, 7) = rookChar color) &&
    decide (bGet b (row, 5) = '.' ∧ bGet b (row, 6) = '.') &&
    !(squareAttackedBy b row 4 color.other) &&
    !(squareAttackedBy b row 5 color.other) &&
    !(squareAttackedBy b row 6 color.other)
  | .queen =>
    rights.2 &&
    decide (bGet b (row, 4) = kingChar color) &&
    decide (bGet b (row, 0) = rookChar color) &&
    decide (bGet b (row, 1) = '.' ∧ bGet b (row, 2) = '.' ∧ bGet b (row, 3) = '.') &&
    !(squareAttackedBy b row 4 color.other) &&
    !(squareAttackedBy b row 3 color.other) &&
    !(squareAttackedBy b row 2 color.other)

/-- A back-rank mate: the black king on a8 is checked by the rook on h8
and has no flight square (the white king guards b7 and b8 via b6). -/
def mateBoard : Board :=
  [ "k......R".toList,
    "........".toList,
    ".K......".toList,
    "........".toList,
    "........".toList,
    "........".toList,
    "........".toList,
    "........".toList ]

/-- A white pawn one step from promotion (e7), with only the two kings
beside it. -/
def promoBoard : Board :=
  [ "k.......".toList,
    "....P...".toList,
    "........".toList,
    "........".toList,
    "........".toList,
    "........".toList,
    "........".toList,
    "....K...".toList ]

/-- White king and rook on their home squares with the castling path
clear; the black king is far away. -/
def castleBoard : Board :=
  [ "k.......".toList,
    "........".toList,
    "........".toList,
    "........".toList,
    "........".toList,
    "........".toList,
    "........".toList,
    "....K..R".toList ]

/-- A white rook that can capture a black pawn two squares to its right. -/
def capBoard : Board :=
  [ "........".toList,
    "........".toList,
    "........".toList,
    "........".toList,
    "....R.p.".toList,
    "........".toList,
    "........".toList,
    "........".toList ]

/-- A white pawn on e5 beside a black pawn on f5 that just advanced two
squares (en-passant target f6). -/
def epBoard : Board :=
  [ "k.......".toList,
    "........".toList,
    "........".toList,
    "....Pp..".toList,
    "........".toList,
    "........".toList,
    "........".toList,
    "....K...".toList ]

/-- White rook on a1 and king on e1 (black king far away), used to watch
a rook move revoke exactly the queenside right. -/
def rookMoveBoard : Board :=
  [ "....k...".toList,
    "........".toList,
    "........".toList,
    "........".toList,
    "........".toList,
    "........".toList,
    "........".toList,
    "R...K...".toList ]

/-- Counting over a concatenation of blocks is summing per-block counts. -/
theorem countP_flatMap (l : List α) (f : α → List β) (p : β → Bool) :
    ((l.flatMap f).countP p) = (l.map fun a => (f a).countP p).sum := by
  induction l with
  | nil => simp
  | cons a l ih => simp [List.flatMap_cons, List.countP_append, ih]

/-- Summing a map over a concatenation of blocks is summing per-block sums. -/
theorem sum_map_flatMap (l : List α) (g : α → List β) (F : β → Nat) :
    (((l.flatMap g).map F).sum) = (l.map fun a => ((g a).map F).sum).sum := by
  induction l with
  | nil => simp
  | cons a l ih => simp [List.flatMap_cons, ih]

/-- The total legal-move count decomposes into the per-row counts. -/
theorem countLegal_eq_rows (prov : Color → Char) (b : Board) (turnWhite : Bool)
    (enp : Option Sq) (cd : Castling) :
    countLegalMoves prov b turnWhite enp cd =
      ((List.range 8).map (rowLegalCount prov b turnWhite enp cd)).sum := by
  unfold countLegalMoves rowLegalCount originLegalCount
  rw [countP_flatMap]
  rw [show allSquares = (List.range 8).flatMap fun r => (List.range 8).map fun c => (r, c) from rfl]
  rw [sum_map_flatMap]
  simp only [List.countP_map]
  rfl

/-- The attack detector's result depends on a validator only through its
raw-mode specialization (`castling_rights=None`, `checking_check=False`). -/
theorem squareAttackedByG_congr (v v2 : Validator)
    (h : ∀ b s e t enp, v b s e t enp none false = v2 b s e t enp none false) :
    ∀ b r c color, squareAttackedByG v b r c color = squareAttackedByG v2 b r c color := by
  intro b r c color
  unfold squareAttackedByG
  simp only [h]

/-- `in_check` depends on a validator only through its raw-mode specialization. -/
theorem inCheckG_congr (v v2 : Validator)
    (h : ∀ b s e t enp, v b s e t enp none false = v2 b s e t enp none false) :
    ∀ b color, inCheckG v b color = inCheckG v2 b color := by
  intro b color
  unfold inCheckG
  cases findKingPos b color with
  | none => rfl
  | some sq => exact squareAttackedByG_congr v v2 h b sq.1 sq.2 color.other

/-- `can_castle` depends on a validator only through its raw-mode specialization. -/
theorem canCastleG_congr (v v2 : Validator)
    (h : ∀ b s e t enp, v b s e t enp none false = v2 b s e t enp none false) :
    ∀ b color side rights,
      canCastleG v b color side rights = canCastleG v2 b color side rights := by
  intro b color side rights
  unfold canCastleG
  simp only [squareAttackedByG_congr v v2 h, inCheckG_congr v v2 h]

/-- `move_with_extras` depends on a validator only through its raw-mode
specialization. -/
theorem moveWithExtrasG_congr (v v2 : Validator)
    (h : ∀ b s e t enp, v b s e t enp none false = v2 b s e t enp none false) :
    ∀ prov b s e t enp cd,
      moveWithExtrasG v prov b s e t enp cd = moveWithExtrasG v2 prov b s e t enp cd := by
  intro prov b s e t enp cd
  unfold moveWithExtrasG
  simp only [canCastleG_congr v v2 h]

/-- The piece dispatch depends on a validator only through its raw-mode
specialization. -/
theorem pieceRule_congr (v v2 : Validator)
    (h : ∀ b s e t enp, v b s e t enp none false = v2 b s e t enp none false) :
    ∀ b s e t enp cr, pieceRule v b s e t enp cr = pieceRule v2 b s e t enp cr := by
  intro b s e t enp cr
  unfold pieceRule
  simp only [canCastleG_congr v v2 h]

/-- Raw legality depends on a validator only through its raw-mode
specialization. -/
theorem rawLegal_congr (v v2 : Validator)
    (h : ∀ b s e t enp, v b s e t enp none false = v2 b s e t enp none false) :
    ∀ b s e t enp cr, rawLegal v b s e t enp cr = rawLegal v2 b s e t enp cr := by
  intro b s e t enp cr
  unfold rawLegal
  simp only [pieceRule_congr v v2 h]

/-- The whole validator body depends on a validator only through its
raw-mode specialization. -/
theorem body_congr (v v2 : Validator)
    (h : ∀ b s e t enp, v b s e t enp none false = v2 b s e t enp none false) :
    ∀ prov b s e t enp cr cc,
      isValidMoveBody v prov b s e t enp cr cc = isValidMoveBody v2 prov b s e t enp cr cc := by
  intro prov b s e t enp cr cc
  unfold isValidMoveBody
  simp only [inCheckG_congr v v2 h, moveWithExtrasG_congr v v2 h, rawLegal_congr v v2 h]

/-- With `checking_check=False` the validator is exactly the raw-legality
prefix: the simulation is skipped. -/
theorem body_false_eq_raw (v : Validator) (prov : Color → Char) (b : Board)
    (s e : Sq) (t : Bool) (enp : Option Sq) (cr : Option Castling) :
    isValidMoveBody v prov b s e t enp cr false = rawLegal v b s e t enp cr := by
  unfold isValidMoveBody
  cases h : rawLegal v b s e t enp cr <;> simp [h]

/-- Full mode is the raw mode conjoined with the simulated own-king
check-safety test. -/
theorem body_full_eq_raw_and_safe (v : Validator) (prov : Color → Char) (b : Board)
    (s e : Sq) (t : Bool) (enp : Option Sq) (cd : Castling) :
    isValidMoveBody v prov b s e t enp (some cd) true =
      (isValidMoveBody v prov b s e t enp (some cd) false &&
        !(inCheckG v (moveWithExtrasG v prov b s e t enp cd).1
            (if isWhitePiece (bGet b s) then .white else .black))) := by
  rw [body_false_eq_raw]
  unfold isValidMoveBody
  cases h : rawLegal v b s e t enp (some cd) <;> simp [h]

/-- At any positive fuel, the raw-mode no-rights specialization of the
fueled validator has already converged: the castle branch rejects
without calling `can_castle` and the simulation is skipped, so no fuel
is consumed. -/
theorem fueled_raw_stable (prov : Color → Char) (f : Nat) :
    ∀ b s e t enp, isValidMoveF prov (f + 1) b s e t enp none false =
      rawAdapter b s e t enp none false := by
  intro b s e t enp
  show isValidMoveBody (isValidMoveF prov f) prov b s e t enp none false = _
  rw [body_false_eq_raw]
  rfl

/-- Updating one color's castling rights reads back as the update. -/
theorem get_setC_same (cd : Castling) (color : Color) (pr : Bool × Bool) :
    (cd.setC color pr).get color = pr := by cases color <;> rfl

/-- Updating one color's castling rights leaves the other color's intact. -/
theorem get_setC_other (cd : Castling) (color : Color) (pr : Bool × Bool) :
    (cd.setC color pr).get color.other = cd.get color.other := by cases color <;> rfl

/-- Reading a square just written returns the written character. -/
theorem bGet_bSet_self (b : Board) (sq : Sq) (ch : Char)
    (hr : sq.1 < b.length) (hc : sq.2 < (b.getD sq.1 []).length) :
    bGet (bSet b sq ch) sq = ch := by
  simp [bGet, bSet, List.getD_eq_getElem?_getD, List.getElem?_set, hr]
  rw [List.getD_eq_getElem?_getD] at hc
  cases hb : b[sq.1]? with
  | none => simp_all [List.getElem?_eq_none_iff]
  | some row => simp_all

/-- Reading any other square is unaffected by a write. -/
theorem bGet_bSet_ne (b : Board) (sq sq2 : Sq) (ch : Char) (h : sq2 ≠ sq) :
    bGet (bSet b sq ch) sq2 = bGet b sq2 := by
  by_cases hrow : sq.1 = sq2.1
  · have hcol : sq.2 ≠ sq2.2 := fun hcontra => h (Prod.ext hrow hcontra).symm
    simp [bGet, bSet, List.getD_eq_getElem?_getD, List.getElem?_set, hrow]
    cases hb : b[sq2.1]? with
    | none => split <;> simp
    | some row =>
      split
      · simp [List.getElem?_set_ne hcol]
      · rename_i hlen
        rw [List.getElem?_eq_none (by omega)] at hb
        cases hb
  · simp [bGet, bSet, List.getD_eq_getElem?_getD, List.getElem?_set_ne hrow]

/-- A write never changes a row's length. -/
theorem row_length_bSet (b : Board) (sq : Sq) (ch : Char) (i : Nat) :
    ((bSet b sq ch).getD i []).length = (b.getD i []).length := by
  by_cases hrow : sq.1 = i
  · subst hrow
    simp [bSet, List.getD_eq_getElem?_getD, List.getElem?_set]
    cases hb : b[sq.1]? with
    | none => split <;> simp
    | some row =>
      split
      · simp
      · rename_i hlen
        rw [List.getElem?_eq_none (by omega)] at hb
        cases hb
  · simp [bSet, List.getD_eq_getElem?_getD, List.getElem?_set_ne hrow]

/-- Writes preserve board well-formedness. -/
theorem wf8_bSet (b : Board) (sq : Sq) (ch : Char) (h : wf8 b) : wf8 (bSet b sq ch) := by
  refine ⟨by simp [bSet, h.1], fun i hi => ?_⟩
  rw [row_length_bSet]
  exact h.2 i hi

/-- Reading back a write on a well-formed board. -/
theorem bGet_bSet_self_wf (b : Board) (sq : Sq) (ch : Char) (h : wf8 b)
    (h1 : sq.1 < 8) (h2 : sq.2 < 8) : bGet (bSet b sq ch) sq = ch := by
  apply bGet_bSet_self
  · rw [h.1]
    exact h1
  · rw [h.2 sq.1 h1]
    exact h2

/-- The ray walk rejects any square lying strictly beyond an occupied
square of the same ray. -/
theorem rayReach_false_of_blocker (b : Board) :
    ∀ (ray : List Sq) (i j : Nat) (hij : i < j) (hj : j < ray.length),
      ray.Nodup → bGet b (ray.get ⟨i, Nat.lt_trans hij hj⟩) ≠ '.' →
      rayReach b ray (ray.get ⟨j, hj⟩) = false := by
  intro ray
  induction ray with
  | nil =>
    intro i j hij hj
    exact absurd hj (by simp)
  | cons sq rest ih =>
    intro i j hij hj hnd hblock
    obtain ⟨j2, rfl⟩ : ∃ j2, j = j2 + 1 := ⟨j - 1, by omega⟩
    have hj2 : j2 < rest.length := by simpa using hj
    have hstep : ∀ (x : Sq) (xs : List Sq) (e : Sq),
        rayReach b (x :: xs) e =
          if x = e then true else if bGet b x ≠ '.' then false else rayReach b xs e :=
      fun _ _ _ => rfl
    have he : (sq :: rest).get ⟨j2 + 1, hj⟩ = rest.get ⟨j2, hj2⟩ := rfl
    have hneq : ¬ (sq = rest.get ⟨j2, hj2⟩) := by
      intro hcontra
      exact (List.nodup_cons.mp hnd).1 (hcontra ▸ rest.get_mem j2 hj2)
    rw [he, hstep, if_neg hneq]
    by_cases hhead : bGet b sq = '.'
    · rw [if_neg (by simp [hhead])]
      obtain ⟨i2, rfl⟩ : ∃ i2, i = i2 + 1 := by
        rcases i with _ | i2
        · exact absurd hhead hblock
        · exact ⟨i2, rfl⟩
      have hi2 : i2 < j2 := by omega
      have hblock2 : bGet b (rest.get ⟨i2, Nat.lt_trans hi2 hj2⟩) ≠ '.' := hblock
      exact ih i2 j2 hi2 hj2 (List.nodup_cons.mp hnd).2 hblock2
    · rw [if_pos hhead]

/-- When the destination lies on one ray of a pairwise-disjoint family,
the sliding scan reduces to the walk along that ray. -/
theorem slideValid_eq_rayReach (b : Board) :
    ∀ (rays : List (List Sq)) (ray : List Sq) (e : Sq),
      List.Pairwise (fun A B => ∀ x ∈ A, x ∉ B) rays → ray ∈ rays → e ∈ ray →
      slideValid b rays e = rayReach b ray e := by
  intro rays
  induction rays with
  | nil =>
    intro ray e _ hmem
    exact absurd hmem (by simp)
  | cons hd tl ih =>
    intro ray e hpw hmem hein
    rcases List.mem_cons.mp hmem with rfl | htl
    · simp [slideValid, hein]
    · have hR := (List.pairwise_cons.mp hpw).1 ray htl
      have hnot : e ∉ hd := fun hcontra => hR e hcontra hein
      simp only [slideValid, if_neg hnot]
      exact ih ray e (List.pairwise_cons.mp hpw).2 htl hein

/-- A destination on none of the rays is not reachable by sliding. -/
theorem slideValid_false_of_not_mem (b : Board) :
    ∀ (rays : List (List Sq)) (e : Sq), (∀ ray ∈ rays, e ∉ ray) → slideValid b rays e = false := by
  intro rays
  induction rays with
  | nil =>
    intro e _
    rfl
  | cons hd tl ih =>
    intro e hnot
    simp only [slideValid, if_neg (hnot hd (by simp))]
    exact ih e fun ray hm => hnot ray (by simp [hm])

set_option maxRecDepth 10000 in
/-- The eight rook/bishop rays out of any square are pairwise disjoint. -/
theorem slides_pairwise :
    ∀ s ∈ allSquares,
      List.Pairwise (fun A B => ∀ x ∈ A, x ∉ B) (rookSlides s ++ bishopSlides s) := by decide

set_option maxRecDepth 10000 in
/-- No ray out of a square repeats a square. -/
theorem slides_nodup :
    ∀ s ∈ allSquares, ∀ ray ∈ rookSlides s ++ bishopSlides s, ray.Nodup := by decide

/-- Every in-bounds coordinate pair is in the square enumeration. -/
theorem mem_allSquares (r c : Nat) (hr : r < 8) (hc : c < 8) : (r, c) ∈ allSquares := by
  simp only [allSquares, List.mem_flatMap, List.mem_map, List.mem_range]
  exact ⟨r, hr, c, hc, rfl⟩

/-- A failing piece rule makes the whole raw check fail. -/
theorem rawLegal_false_of_pieceRule_false (v : Validator) (b : Board) (s e : Sq)
    (t : Bool) (enp : Option Sq) (cr : Option Castling)
    (hv : pieceRule v b s e t enp cr = false) :
    rawLegal v b s e t enp cr = false := by
  unfold rawLegal
  split_ifs <;> simp_all

/-- For a rook, the piece rule is the rook sliding test. -/
theorem pieceRule_rook_false (v : Validator) (b : Board) (s e : Sq) (t : Bool)
    (enp : Option Sq) (cr : Option Castling)
    (hp : (bGet b s).toUpper = 'R') (hv : validRookMove b s e = false) :
    pieceRule v b s e t enp cr = false := by
  unfold pieceRule
  rw [hp, if_neg (by decide), if_neg (by decide), if_neg (by decide), if_pos rfl]
  exact hv

/-- For a bishop, the piece rule is the bishop sliding test. -/
theorem pieceRule_bishop_false (v : Validator) (b : Board) (s e : Sq) (t : Bool)
    (enp : Option Sq) (cr : Option Castling)
    (hp : (bGet b s).toUpper = 'B') (hv : validBishopMove b s e = false) :
    pieceRule v b s e t enp cr = false := by
  unfold pieceRule
  rw [hp, if_neg (by decide), if_neg (by decide), if_pos rfl]
  exact hv

/-- For a queen, the piece rule is the combined sliding test. -/
theorem pieceRule_queen_false (v : Validator) (b : Board) (s e : Sq) (t : Bool)
    (enp : Option Sq) (cr : Option Castling)
    (hp : (bGet b s).toUpper = 'Q') (hv : validQueenMove b s e = false) :
    pieceRule v b s e t enp cr = false := by
  unfold pieceRule
  rw [hp, if_neg (by decide), if_neg (by decide), if_neg (by decide), if_neg (by decide),
    if_pos rfl]
  exact hv

/-- A raw-legal move onto an occupied square captures an enemy piece —
never a friendly one. -/
theorem pseudo_true_not_own_capture (b : Board) (s e : Sq) (t : Bool) (enp : Option Sq)
    (hvalid : isPseudoLegalNC b s e t enp = true) (hocc : bGet b e ≠ '.') :
    getPieceColor (bGet b e) =
      some (if isWhitePiece (bGet b s) then Color.white else Color.black).other := by
  have hno : ¬ (bGet b e ≠ '.' ∧ getPieceColor (bGet b e) =
      some (if isWhitePiece (bGet b s) then Color.white else Color.black)) := by
    intro hcontra
    unfold isPseudoLegalNC rawLegal at hvalid
    split_ifs at hvalid <;> simp_all
  rcases hcol : getPieceColor (bGet b e) with _ | c
  · unfold getPieceColor at hcol
    split_ifs at hcol <;> simp_all
  · have hc2 : c ≠ (if isWhitePiece (bGet b s) then Color.white else Color.black) := by
      intro hcontra
      exact hno ⟨hocc, by rw [hcol, hcontra]⟩
    cases c <;> cases hcw : isWhitePiece (bGet b s) <;> simp_all [Color.other]

/-- Any square strictly beyond an occupied square on a sliding ray is an
invalid destination for the rook/bishop/queen standing at the origin. -/
theorem sliding_blocker_invalidates (b : Board) (r c : Nat) (hr : r < 8) (hc : c < 8)
    (t : Bool) (enp : Option Sq) (ray : List Sq) (i j : Nat) (hij : i < j)
    (hj : j < ray.length) (e : Sq)
    (hp : (bGet b (r, c)).toUpper = 'R' ∨ (bGet b (r, c)).toUpper = 'B' ∨
      (bGet b (r, c)).toUpper = 'Q')
    (hray : ray ∈ pieceRays (bGet b (r, c)).toUpper (r, c))
    (he : e = ray.get ⟨j, hj⟩)
    (hblock : bGet b (ray.get ⟨i, Nat.lt_trans hij hj⟩) ≠ '.') :
    isPseudoLegalNC b (r, c) e t enp = false := by
  have hmem := mem_allSquares r c hr hc
  have hpw := slides_pairwise (r, c) hmem
  have hnd := slides_nodup (r, c) hmem
  have hpwR : List.Pairwise (fun A B => ∀ x ∈ A, x ∉ B) (rookSlides (r, c)) :=
    (List.pairwise_append.mp hpw).1
  have hpwB : List.Pairwise (fun A B => ∀ x ∈ A, x ∉ B) (bishopSlides (r, c)) :=
    (List.pairwise_append.mp hpw).2.1
  have hcross := (List.pairwise_append.mp hpw).2.2
  have hein : e ∈ ray := by
    rw [he]
    exact ray.get_mem j hj
  have hreach : rayReach b ray e = false := by
    rw [he]
    exact rayReach_false_of_blocker b ray i j hij hj
      (hnd ray (by
        rcases hp with hp | hp | hp <;> rw [hp] at hray <;>
          simp only [pieceRays, if_pos rfl] at hray <;>
          first
          | exact List.mem_append_left _ hray
          | exact List.mem_append_right _ hray
          | exact hray)) hblock
  rcases hp with hp | hp | hp
  · rw [hp] at hray
    rw [show pieceRays 'R' (r, c) = rookSlides (r, c) from by
      unfold pieceRays
      rw [if_pos rfl]] at hray
    have hrook : validRookMove b (r, c) e = false := by
      unfold validRookMove
      rw [slideValid_eq_rayReach b (rookSlides (r, c)) ray e hpwR hray hein]
      exact hreach
    exact rawLegal_false_of_pieceRule_false _ b (r, c) e t enp none
      (pieceRule_rook_false _ b (r, c) e t enp none hp hrook)
  · rw [hp] at hray
    rw [show pieceRays 'B' (r, c) = bishopSlides (r, c) from by
      unfold pieceRays
      rw [if_neg (by decide), if_pos rfl]] at hray
    have hbishop : validBishopMove b (r, c) e = false := by
      unfold validBishopMove
      rw [slideValid_eq_rayReach b (bishopSlides (r, c)) ray e hpwB hray hein]
      exact hreach
    exact rawLegal_false_of_pieceRule_false _ b (r, c) e t enp none
      (pieceRule_bishop_false _ b (r, c) e t enp none hp hbishop)
  · rw [hp] at hray
    rw [show pieceRays 'Q' (r, c) = rookSlides (r, c) ++ bishopSlides (r, c) from by
      unfold pieceRays
      rw [if_neg (by decide), if_neg (by decide), if_pos rfl]] at hray
    have hqueen : validQueenMove b (r, c) e = false := by
      unfold validQueenMove validRookMove validBishopMove
      rcases List.mem_append.mp hray with hrayR | hrayB
      · rw [slideValid_eq_rayReach b (rookSlides (r, c)) ray e hpwR hrayR hein, hreach]
        rw [slideValid_false_of_not_mem b (bishopSlides (r, c)) e
          (fun B hB hcon => hcross ray hrayR B hB e hein hcon)]
        rfl
      · rw [slideValid_eq_rayReach b (bishopSlides (r, c)) ray e hpwB hrayB hein, hreach]
        rw [slideValid_false_of_not_mem b (rookSlides (r, c)) e
          (fun A hA hcon => hcross A hA ray hrayB e hcon hein)]
        rfl
    exact rawLegal_false_of_pieceRule_false _ b (r, c) e t enp none
      (pieceRule_queen_false _ b (r, c) e t enp none hp hqueen)

/-- A rook character of a given color is exactly `'R'`/`'r'` with a
matching piece color. -/
theorem rook_char_iff (x : Char) (color : Color) :
    ((x = 'R' ∨ x = 'r') ∧ getPieceColor x = some color) ↔ x = rookChar color := by
  cases color <;> constructor
  · rintro ⟨h1 | h1, h2⟩ <;> subst h1 <;> simp_all [getPieceColor, rookChar]
  · rintro rfl
    exact ⟨Or.inl rfl, rfl⟩
  · rintro ⟨h1 | h1, h2⟩ <;> subst h1 <;> simp_all [getPieceColor, rookChar]
  · rintro rfl
    exact ⟨Or.inr rfl, rfl⟩

/-- The executor's returned en-passant target is the skipped square for
a two-rank pawn move and empty otherwise. -/
theorem exec_enp_rule (prov : Color → Char) (b : Board) (s e : Sq) (t : Bool)
    (enp : Option Sq) (cd : Castling) :
    (moveWithExtras prov b s e t enp cd).2.1 =
      (if (bGet b s).toUpper = 'P' ∧ ((e.1 : Int) - (s.1 : Int)).natAbs = 2
       then some ((s.1 + e.1) / 2, s.2) else none) := by
  by_cases hk : (bGet b s).toUpper = 'K'
  · simp only [moveWithExtras, moveWithExtrasG, hk]
    norm_num
    split <;> simp
  · simp only [moveWithExtras, moveWithExtrasG, hk]
    simp [hk]

/-- A diagonal pawn step onto an empty square is raw-valid exactly when
that square is the live en-passant target. -/
theorem ep_capture_needs_live_target (b : Board) (s e : Sq) (t : Bool) (enp : Option Sq)
    (hdiag : ((e.2 : Int) - (s.2 : Int)).natAbs = 1)
    (hstep : (e.1 : Int) = (s.1 : Int) + (if t then -1 else 1))
    (hempty : bGet b e = '.') :
    (validPawnMove b s e t enp = true ↔ enp = some e) := by
  have hcc : ¬ (s.2 = e.2) := by
    intro h
    rw [h] at hdiag
    simp at hdiag
  unfold validPawnMove
  simp only [hempty]
  rw [if_neg (by tauto), if_neg (by tauto), if_pos (by exact ⟨hdiag, hstep⟩)]
  rw [if_neg (by simp)]
  cases enp with
  | none => simp
  | some tg => simp [eq_comm]

set_option maxRecDepth 100000 in
/-- Row 0 of the initial position contributes no white moves. -/
theorem initRow0 : rowLegalCount provQ startingBoard true none fullRights 0 = 0 := by decide

set_option maxRecDepth 100000 in
/-- Row 1 of the initial position contributes no white moves. -/
theorem initRow1 : rowLegalCount provQ startingBoard true none fullRights 1 = 0 := by decide

set_option maxRecDepth 100000 in
/-- Row 2 of the initial position contributes no white moves. -/
theorem initRow2 : rowLegalCount provQ startingBoard true none fullRights 2 = 0 := by decide

set_option maxRecDepth 100000 in
/-- Row 3 of the initial position contributes no white moves. -/
theorem initRow3 : rowLegalCount provQ startingBoard true none fullRights 3 = 0 := by decide

set_option maxRecDepth 100000 in
/-- Row 4 of the initial position contributes no white moves. -/
theorem initRow4 : rowLegalCount provQ startingBoard true none fullRights 4 = 0 := by decide

set_option maxRecDepth 100000 in
/-- Row 5 of the initial position contributes no white moves. -/
theorem initRow5 : rowLegalCount provQ startingBoard true none fullRights 5 = 0 := by decide

set_option maxRecDepth 100000 in
/-- The white pawns contribute sixteen legal moves. -/
theorem initRow6 : rowLegalCount provQ startingBoard true none fullRights 6 = 16 := by decide

set_option maxRecDepth 100000 in
/-- The white back rank contributes the four knight moves. -/
theorem initRow7 : rowLegalCount provQ startingBoard true none fullRights 7 = 4 := by decide

/-- C1: the full-legality query (`is_valid_move` with
`checking_check=True`) accepts a move exactly when the move is
pseudo-legal (`checking_check=False`) and executing it via
`move_with_extras` on a scratch copy leaves the moving side's own king
out of check; consequently a move accepted by full legality never
leaves the mover's own king in check after execution. -/
theorem full_legality_is_raw_and_check_safety (prov : Color → Char) (b : Board) (s e : Sq)
    (t : Bool) (enp : Option Sq) (cd : Castling) :
    (isValidMove prov b s e t enp (some cd) true =
      (isValidMove prov b s e t enp (some cd) false &&
        !(inCheck (moveWithExtras prov b s e t enp cd).1
            (if isWhitePiece (bGet b s) then Color.white else Color.black)))) ∧
    (isValidMove prov b s e t enp (some cd) true = true →
      inCheck (moveWithExtras prov b s e t enp cd).1
        (if isWhitePiece (bGet b s) then Color.white else Color.black) = false) := by
  have h : isValidMove prov b s e t enp (some cd) true =
      (isValidMove prov b s e t enp (some cd) false &&
        !(inCheck (moveWithExtras prov b s e t enp cd).1
            (if isWhitePiece (bGet b s) then Color.white else Color.black))) :=
    body_full_eq_raw_and_safe rawAdapter prov b s e t enp cd
  refine ⟨h, fun hts => ?_⟩
  rw [h, Bool.and_eq_true] at hts
  cases hcheck : inCheck (moveWithExtras prov b s e t enp cd).1
      (if isWhitePiece (bGet b s) then Color.white else Color.black)
  · rfl
  · rw [hcheck] at hts
    exact absurd hts.2 (by decide)

/-- C1 witness: the opening pawn move e2-e4 is fully legal and leaves
the white king out of check. -/
theorem full_legality_is_raw_and_check_safety_witness :
    isValidMove provQ startingBoard (6, 4) (4, 4) true none (some fullRights) true = true ∧
    inCheck (moveWithExtras provQ startingBoard (6, 4) (4, 4) true none fullRights).1
      Color.white = false :=
  ⟨by decide, (full_legality_is_raw_and_check_safety provQ startingBoard (6, 4) (4, 4)
      true none fullRights).2 (by decide)⟩

/-- C2 counterexample: the illegal rook move a1-a5 from the initial
position (the rook is blocked by the a2 pawn, `is_valid_move` rejects
it) is nevertheless executed by `move_with_extras` without any error
signal — it silently returns the board with the rook moved (and even
revokes white's queenside castling right). -/
theorem applyMove_fails_loudly_counterexample :
    isValidMove provQ startingBoard (7, 0) (4, 0) true none (some fullRights) true = false ∧
    moveWithExtras provQ startingBoard (7, 0) (4, 0) true none fullRights =
      ([ "rnbqkbnr".toList, "pppppppp".toList, "........".toList, "........".toList,
         "R.......".toList, "........".toList, "PPPPPPPP".toList, ".NBQKBNR".toList ],
       none, ⟨(true, false), (true, true)⟩) :=
  ⟨by decide, by decide⟩

set_option maxHeartbeats 1000000 in
/-- C2 amended: `move_with_extras` performs no legality validation and
cannot fail — for every board and every non-castling move it
unconditionally vacates the origin and places the moved piece (promoted
when a pawn reaches the final rank) on the destination, whether or not
the move is legal; validity is purely the caller's precondition. -/
theorem moveWithExtras_never_validates (prov : Color → Char) (b : Board) (s e : Sq)
    (t : Bool) (enp : Option Sq) (cd : Castling)
    (hwf : wf8 b) (hs1 : s.1 < 8) (hs2 : s.2 < 8) (he1 : e.1 < 8) (he2 : e.2 < 8)
    (hk : (bGet b s).toUpper ≠ 'K') (hne : s ≠ e) :
    bGet (moveWithExtras prov b s e t enp cd).1 e =
      (if (bGet b s).toUpper = 'P' ∧
          ((if isWhitePiece (bGet b s) then Color.white else Color.black) = Color.white ∧
            e.1 = 0 ∨
           (if isWhitePiece (bGet b s) then Color.white else Color.black) = Color.black ∧
            e.1 = 7)
       then prov (if isWhitePiece (bGet b s) then Color.white else Color.black)
       else bGet b s) ∧
    bGet (moveWithExtras prov b s e t enp cd).1 s = '.' := by
  simp only [moveWithExtras, moveWithExtrasG]
  split
  · rename_i side heq
    rw [if_neg (fun hcontra => hk hcontra.1), if_neg (fun hcontra => hk hcontra.1)] at heq
    cases heq
  · rename_i heq
    dsimp only
    have hwfM : wf8 (match enp with
      | some tg =>
        if (bGet b s).toUpper = 'P' ∧ e = tg ∧ s.2 ≠ e.2 ∧ bGet (bSet b s '.') e = '.' then
          bSet (bSet b s '.') (s.1, e.2) '.'
        else bSet b s '.'
      | none => bSet b s '.') := by
      split
      · split
        · exact wf8_bSet _ _ _ (wf8_bSet _ _ _ hwf)
        · exact wf8_bSet _ _ _ hwf
      · exact wf8_bSet _ _ _ hwf
    constructor
    · by_cases hp : (bGet b s).toUpper = 'P'
      · by_cases hw : isWhitePiece (bGet b s) = true
        · rw [if_pos hw]
          by_cases h0 : e.1 = 0
          · rw [if_pos ⟨hp, rfl, h0⟩, if_pos ⟨hp, Or.inl ⟨rfl, h0⟩⟩]
            exact bGet_bSet_self_wf _ _ _ (wf8_bSet _ _ _ hwfM) he1 he2
          · rw [if_neg (fun hco => h0 hco.2.2),
              if_neg (fun hco => absurd hco.2.1 (by decide)),
              if_neg (fun hco => hco.2.elim (fun x => h0 x.2) (fun x => absurd x.1 (by decide)))]
            exact bGet_bSet_self_wf _ _ _ hwfM he1 he2
        · rw [if_neg hw]
          by_cases h7 : e.1 = 7
          · rw [if_neg (fun hco => absurd hco.2.1 (by decide)), if_pos ⟨hp, rfl, h7⟩,
              if_pos ⟨hp, Or.inr ⟨rfl, h7⟩⟩]
            exact bGet_bSet_self_wf _ _ _ (wf8_bSet _ _ _ hwfM) he1 he2
          · rw [if_neg (fun hco => absurd hco.2.1 (by decide)),
              if_neg (fun hco => h7 hco.2.2),
              if_neg (fun hco => hco.2.elim (fun x => absurd x.1 (by decide)) (fun x => h7 x.2))]
            exact bGet_bSet_self_wf _ _ _ hwfM he1 he2
      · rw [if_neg (fun hco => hp hco.1), if_neg (fun hco => hp hco.1),
          if_neg (fun hco => hp hco.1)]
        exact bGet_bSet_self_wf _ _ _ hwfM he1 he2
    · have hpeel : ∀ (X : Board) (ch : Char), bGet (bSet X e ch) s = bGet X s :=
        fun X ch => bGet_bSet_ne X e s ch hne
      have hself : bGet (bSet b s '.') s = '.' := bGet_bSet_self_wf b s '.' hwf hs1 hs2
      clear hwfM heq
      rcases enp with _ | tg
      · dsimp only
        split <;> (try split) <;> (try split) <;> (try simp only [hpeel]) <;> exact hself
      · dsimp only
        by_cases hep : ((bGet b s).toUpper = 'P' ∧ e = tg ∧ s.2 ≠ e.2 ∧
            bGet (bSet b s '.') e = '.')
        · rw [if_pos hep]
          have hpeel2 : bGet (bSet (bSet b s '.') (s.1, e.2) '.') s = '.' := by
            rw [bGet_bSet_ne _ _ _ _ (fun hcontra : s = (s.1, e.2) =>
              hep.2.2.1 ((congrArg Prod.snd hcontra : s.2 = (s.1, e.2).2)))]
            exact hself
          split <;> (try split) <;> (try split) <;> (try simp only [hpeel]) <;> exact hpeel2
        · rw [if_neg hep]
          split <;> (try split) <;> (try split) <;> (try simp only [hpeel]) <;> exact hself

/-- C2 amended witness: the illegal blocked rook move a1-a5 is executed
anyway — the rook appears on a5 and a1 is vacated. -/
theorem moveWithExtras_never_validates_witness :
    bGet (moveWithExtras provQ startingBoard (7, 0) (4, 0) true none fullRights).1 (4, 0) =
      'R' ∧
    bGet (moveWithExtras provQ startingBoard (7, 0) (4, 0) true none fullRights).1 (7, 0) =
      '.' := by
  have h := moveWithExtras_never_validates provQ startingBoard (7, 0) (4, 0) true none
    fullRights (by constructor <;> decide) (by decide) (by decide) (by decide) (by decide)
    (by decide) (by decide)
  exact ⟨h.1, h.2⟩

/-- C3 (code bug): a pure legality query invokes the promotion-decision
provider.  With a white pawn on e7, the query
`is_valid_move((1,4) -> (0,4), checking_check=True)` — a query the
engine also issues from `has_legal_move` — performs one
`promotion_choice` invocation inside its check-safety simulation, even
though the spec allows the provider to be called exactly once and only
when a move is actually executed. -/
theorem legality_query_invokes_promotion_provider :
    isValidMovePromoCalls promoBoard (1, 4) (0, 4) true none (some fullRights) true = 1 ∧
    isValidMove provQ promoBoard (1, 4) (0, 4) true none (some fullRights) true = true :=
  ⟨by decide, by decide⟩

set_option maxHeartbeats 1600000 in
/-- C4: `can_castle` returns true exactly under the spec's conditions —
right still held, king and rook on their original squares with the
correct colors, the squares strictly between them empty, and neither
the king's square nor any square it passes through (destination
included) attacked by the opponent — for every board on which the
king-position scan finds the home-square king (guaranteed whenever the
board holds exactly one king of that color, the spec's well-formedness
precondition). -/
theorem can_castle_matches_spec (b : Board) (color : Color) (side : Side)
    (rights : Bool × Bool)
    (h : bGet b (homeRow color, 4) = kingChar color →
      findKingPos b color = some (homeRow color, 4)) :
    canCastle b color side rights = specCanCastle b color side rights := by
  by_cases hkc : bGet b (homeRow color, 4) = kingChar color
  · have hic : inCheckG rawAdapter b color =
        squareAttackedBy b (homeRow color) 4 color.other := by
      unfold inCheckG
      rw [h hkc]
      rfl
    cases side <;>
      (unfold canCastle canCastleG specCanCastle
       simp only [hic, squareAttackedBy]
       split_ifs <;> simp_all [rook_char_iff] <;> tauto)
  · cases side <;>
      (unfold canCastle canCastleG specCanCastle
       split_ifs <;> simp_all)

/-- C4 witness: with only the white king on e1 and rook on h1 (black
king far away), both the source's `can_castle` and the spec's condition
grant kingside castling. -/
theorem can_castle_matches_spec_witness :
    canCastle castleBoard .white .king (true, true) = true ∧
    specCanCastle castleBoard .white .king (true, true) = true := by
  have h := can_castle_matches_spec castleBoard .white .king (true, true) (by decide)
  exact ⟨by decide, h.symm.trans (by decide)⟩

/-- C5: the legality/attack call graph needs no unbounded recursion —
the literal mutual recursion of the source, fueled, already computes the
fixed point at fuel 2, because `square_attacked_by` invokes the
validator in raw mode (`castling_rights=None`, `checking_check=False`),
in which the castle branch rejects before calling `can_castle` and the
check-safety simulation is skipped, so no further recursive calls are
made. -/
theorem bounded_fuel_computes_legality (prov : Color → Char) (f : Nat) (hf : 2 ≤ f) :
    ∀ b s e t enp cr cc,
      isValidMoveF prov f b s e t enp cr cc = isValidMove prov b s e t enp cr cc := by
  intro b s e t enp cr cc
  obtain ⟨f2, rfl⟩ : ∃ f2, f = f2 + 2 := ⟨f - 2, by omega⟩
  show isValidMoveBody (isValidMoveF prov (f2 + 1)) prov b s e t enp cr cc = _
  exact body_congr _ rawAdapter (fueled_raw_stable prov f2) prov b s e t enp cr cc

/-- C5 witness: at fuel 2 the fueled validator already agrees with the
layered one on the opening move e2-e4, which is legal. -/
theorem bounded_fuel_computes_legality_witness :
    isValidMoveF provQ 2 startingBoard (6, 4) (4, 4) true none (some fullRights) true =
      isValidMove provQ startingBoard (6, 4) (4, 4) true none (some fullRights) true ∧
    isValidMove provQ startingBoard (6, 4) (4, 4) true none (some fullRights) true = true :=
  ⟨bounded_fuel_computes_legality provQ 2 (by decide) startingBoard (6, 4) (4, 4) true none
      (some fullRights) true, by decide⟩

/-- C6: the executor returns the skipped square as the new en-passant
target exactly when the moved piece is a pawn advancing two ranks (and
an empty target otherwise), and a diagonal pawn step onto an empty
square is valid exactly when that square is the live en-passant target
— so the capture is legal only on the ply immediately after the double
advance and illegal the ply after, once the target has been cleared. -/
theorem en_passant_valid_single_ply :
    (∀ (prov : Color → Char) (b : Board) (s e : Sq) (t : Bool) (enp : Option Sq)
        (cd : Castling),
      (moveWithExtras prov b s e t enp cd).2.1 =
        (if (bGet b s).toUpper = 'P' ∧ ((e.1 : Int) - (s.1 : Int)).natAbs = 2
         then some ((s.1 + e.1) / 2, s.2) else none)) ∧
    (∀ (b : Board) (s e : Sq) (t : Bool) (enp : Option Sq),
      ((e.2 : Int) - (s.2 : Int)).natAbs = 1 →
      (e.1 : Int) = (s.1 : Int) + (if t then -1 else 1) →
      bGet b e = '.' →
      (validPawnMove b s e t enp = true ↔ enp = some e)) :=
  ⟨exec_enp_rule, ep_capture_needs_live_target⟩

/-- C6 witness: e2-e4 sets the target e3; with the target on f6 live,
the white pawn on e5 may capture onto f6 en passant. -/
theorem en_passant_valid_single_ply_witness :
    (moveWithExtras provQ startingBoard (6, 4) (4, 4) true none fullRights).2.1 =
      some (5, 4) ∧
    validPawnMove epBoard (3, 4) (2, 5) true (some (2, 5)) = true := by
  constructor
  · rw [en_passant_valid_single_ply.1 provQ startingBoard (6, 4) (4, 4) true none fullRights]
    decide
  · exact (en_passant_valid_single_ply.2 epBoard (3, 4) (2, 5) true (some (2, 5)) (by decide)
      (by decide) (by decide)).mpr rfl

/-- C7: for a rook, bishop or queen, any piece standing on a square of a
ray from the origin makes every square strictly beyond it on that ray an
invalid destination; and a raw-valid move onto any occupied square
(the blocking square in particular) always captures an enemy piece,
never a friendly one. -/
theorem sliding_blocked_beyond_occupied :
    (∀ (b : Board) (r c : Nat), r < 8 → c < 8 →
      ∀ (t : Bool) (enp : Option Sq) (ray : List Sq) (i j : Nat) (hij : i < j)
        (hj : j < ray.length) (e : Sq),
      ((bGet b (r, c)).toUpper = 'R' ∨ (bGet b (r, c)).toUpper = 'B' ∨
        (bGet b (r, c)).toUpper = 'Q') →
      ray ∈ pieceRays (bGet b (r, c)).toUpper (r, c) →
      e = ray.get ⟨j, hj⟩ →
      bGet b (ray.get ⟨i, Nat.lt_trans hij hj⟩) ≠ '.' →
      isPseudoLegalNC b (r, c) e t enp = false) ∧
    (∀ (b : Board) (s e : Sq) (t : Bool) (enp : Option Sq),
      bGet b e ≠ '.' → isPseudoLegalNC b s e t enp = true →
      getPieceColor (bGet b e) =
        some (if isWhitePiece (bGet b s) then Color.white else Color.black).other) :=
  ⟨fun b r c hr hc t enp ray i j hij hj e hp hray he hblock =>
      sliding_blocker_invalidates b r c hr hc t enp ray i j hij hj e hp hray he hblock,
    fun b s e t enp hocc hv => pseudo_true_not_own_capture b s e t enp hv hocc⟩

/-- C7 witness: from the initial position the rook on a1 cannot jump to
a5 past the a2 pawn, and the rook on the capture board takes the enemy
pawn on g4. -/
theorem sliding_blocked_beyond_occupied_witness :
    isPseudoLegalNC startingBoard (7, 0) (4, 0) true none = false ∧
    getPieceColor (bGet capBoard (4, 6)) = some Color.black := by
  constructor
  · exact sliding_blocked_beyond_occupied.1 startingBoard 7 0 (by decide) (by decide) true
      none [(6, 0), (5, 0), (4, 0), (3, 0), (2, 0), (1, 0), (0, 0)] 0 2 (by decide)
      (by decide) (4, 0) (Or.inl (by decide)) (by decide) (by decide) (by decide)
  · exact sliding_blocked_beyond_occupied.2 capBoard (4, 4) (4, 6) true none (by decide)
      (by decide)

/-- C8: checkmate and stalemate are mutually exclusive, each requires
the side to have no legal move, and — when there is no legal move — the
two are distinguished solely by the current check status. -/
theorem checkmate_stalemate_relationship (prov : Color → Char) (b : Board) (color : Color)
    (cd : Castling) (enp : Option Sq) :
    (¬ (isCheckmate prov b color cd enp = true ∧ isStalemate prov b color cd enp = true)) ∧
    (isCheckmate prov b color cd enp = true → hasLegalMove prov b color cd enp = false) ∧
    (isStalemate prov b color cd enp = true → hasLegalMove prov b color cd enp = false) ∧
    (hasLegalMove prov b color cd enp = false →
      isCheckmate prov b color cd enp = inCheck b color ∧
      isStalemate prov b color cd enp = !(inCheck b color)) := by
  unfold isCheckmate isStalemate
  cases hc : inCheck b color <;> cases hl : hasLegalMove prov b color cd enp <;>
    simp [hc, hl]

/-- C8 witness: a back-rank mate is reported as checkmate, there is no
legal move, and it is not a stalemate. -/
theorem checkmate_stalemate_relationship_witness :
    isCheckmate provQ mateBoard .black fullRights none = true ∧
    hasLegalMove provQ mateBoard .black fullRights none = false ∧
    isStalemate provQ mateBoard .black fullRights none = false :=
  ⟨by decide,
    (checkmate_stalemate_relationship provQ mateBoard .black fullRights none).2.1 (by decide),
    by decide⟩

/-- C9: in the standard initial position with White to move, full
castling rights and no en-passant target, exactly 20 origin/destination
pairs are accepted by the full-legality query. -/
theorem initial_position_twenty_legal_moves :
    countLegalMoves provQ startingBoard true none fullRights = 20 := by
  rw [countLegal_eq_rows]
  rw [show List.range 8 = [0, 1, 2, 3, 4, 5, 6, 7] from rfl]
  simp only [List.map_cons, List.map_nil, List.sum_cons, List.sum_nil]
  rw [initRow0, initRow1, initRow2, initRow3, initRow4, initRow5, initRow6, initRow7]
  rfl

/-- C10: executing a move touches the castling rights only as follows —
the opponent's flags are always untouched (so capturing a rook on its
original corner does not revoke the opponent's rights), a king move
clears both of the mover's flags, a rook move clears exactly the flag
of the corner it departs, and any other move leaves the mover's flags
unchanged. -/
theorem castling_rights_revocation_frame (prov : Color → Char) (b : Board) (s e : Sq)
    (t : Bool) (enp : Option Sq) (cd : Castling) :
    ((moveWithExtras prov b s e t enp cd).2.2.get
        (if isWhitePiece (bGet b s) then Color.white else Color.black).other =
      cd.get (if isWhitePiece (bGet b s) then Color.white else Color.black).other) ∧
    ((bGet b s).toUpper = 'K' →
      (moveWithExtras prov b s e t enp cd).2.2.get
          (if isWhitePiece (bGet b s) then Color.white else Color.black) = (false, false)) ∧
    ((bGet b s).toUpper = 'R' →
      ((moveWithExtras prov b s e t enp cd).2.2.get
          (if isWhitePiece (bGet b s) then Color.white else Color.black)).1 =
        (if s = (homeRow (if isWhitePiece (bGet b s) then Color.white else Color.black), 7)
         then false
         else (cd.get (if isWhitePiece (bGet b s) then Color.white else Color.black)).1) ∧
      ((moveWithExtras prov b s e t enp cd).2.2.get
          (if isWhitePiece (bGet b s) then Color.white else Color.black)).2 =
        (if s = (homeRow (if isWhitePiece (bGet b s) then Color.white else Color.black), 0)
         then false
         else (cd.get (if isWhitePiece (bGet b s) then Color.white else Color.black)).2)) ∧
    ((bGet b s).toUpper ≠ 'K' → (bGet b s).toUpper ≠ 'R' →
      (moveWithExtras prov b s e t enp cd).2.2 = cd) := by
  by_cases hk : (bGet b s).toUpper = 'K'
  · simp only [moveWithExtras, moveWithExtrasG, hk]
    split
    all_goals
      refine ⟨?_, fun _ => ?_, ?_, ?_⟩
      · first
        | exact get_setC_other cd _ _
        | simp [get_setC_other]
      · first
        | exact get_setC_same cd _ _
        | simp [get_setC_same]
      · simp
      · simp
  · simp only [moveWithExtras, moveWithExtrasG]
    rw [show (if (bGet b s).toUpper = 'K' ∧ s = (homeRow (if isWhitePiece (bGet b s) then Color.white else Color.black), 4) ∧ e = (homeRow (if isWhitePiece (bGet b s) then Color.white else Color.black), 6) ∧ canCastleG rawAdapter b (if isWhitePiece (bGet b s) then Color.white else Color.black) Side.king (cd.get (if isWhitePiece (bGet b s) then Color.white else Color.black)) = true then some Side.king else if (bGet b s).toUpper = 'K' ∧ s = (homeRow (if isWhitePiece (bGet b s) then Color.white else Color.black), 4) ∧ e = (homeRow (if isWhitePiece (bGet b s) then Color.white else Color.black), 2) ∧ canCastleG rawAdapter b (if isWhitePiece (bGet b s) then Color.white else Color.black) Side.queen (cd.get (if isWhitePiece (bGet b s) then Color.white else Color.black)) = true then some Side.queen else none) = none from by rw [if_neg (by tauto), if_neg (by tauto)]]
    simp only [if_neg hk]
    by_cases hr : (bGet b s).toUpper = 'R'
    · simp only [if_pos hr]
      refine ⟨?_, fun h => absurd h hk, fun _ => ?_, fun _ h => absurd hr h⟩
      · split_ifs <;> simp [get_setC_other]
      · constructor <;> split_ifs <;>
          simp_all [get_setC_same, get_setC_other, Castling.get, Castling.setC] <;>
          (try (cases (isWhitePiece (bGet b s)) <;> simp_all [Castling.get, Castling.setC]))
    · simp only [if_neg hr]
      simp [hk, hr]

/-- C10 witness: the rook move a1-a5 clears exactly white's queenside
right — white's kingside right and black's rights are untouched. -/
theorem castling_rights_revocation_frame_witness :
    ((moveWithExtras provQ rookMoveBoard (7, 0) (4, 0) true none fullRights).2.2).get
      Color.black = (true, true) ∧
    (((moveWithExtras provQ rookMoveBoard (7, 0) (4, 0) true none fullRights).2.2).get
      Color.white).2 = false ∧
    (((moveWithExtras provQ rookMoveBoard (7, 0) (4, 0) true none fullRights).2.2).get
      Color.white).1 = true := by
  have h := castling_rights_revocation_frame provQ rookMoveBoard (7, 0) (4, 0) true none
    fullRights
  exact ⟨h.1, (h.2.2.1 (by decide)).2, (h.2.2.1 (by decide)).1⟩

end Chess
